import Mathlib

/-!
Shallow embedding of the library checkout system
(Task1/src/library_system/models: book.py, member.py, library.py).

Modelling conventions:
* Calendar dates are integers counting days; `date + timedelta(days=n)` is
  integer addition and `(a - b).days` is integer subtraction.
* Currency amounts are rationals.  Every amount produced by the code is a
  whole number of cents built from the constant 0.50, so binary floating
  point evaluates all of its arithmetic exactly and the rational embedding
  is faithful.  The builtin round(x, 2) rounds to cents with ties to even.
* Python dicts are insertion-ordered association lists with unique keys;
  `d[k] = v` updates in place or appends, `del d[k]` removes the entry.
* A raised exception propagates to the caller while in-place mutations
  performed before the raise survive, so every stateful operation returns
  an `Except` result paired with the final state.
-/

deriving instance DecidableEq for Except

namespace LibrarySystem

/-- Rounding of a rational to an integer, ties to even
(the rounding mode of builtin round). -/
def roundHalfEven (x : ℚ) : ℤ :=
  let f := ⌊x⌋
  let frac := x - (f : ℚ)
  if frac < 1/2 then f
  else if 1/2 < frac then f + 1
  else if f % 2 = 0 then f else f + 1

/-- round(x, 2): round a currency amount to cents. -/
def round2 (x : ℚ) : ℚ :=
  (roundHalfEven (x * 100) : ℚ) / 100

/-- book.py: class Book. -/
structure Book where
  isbn : String
  title : String
  author : String
  isAvailable : Bool
deriving DecidableEq

/-- member.py: dataclass BorrowRecord. -/
structure BorrowRecord where
  isbn : String
  checkoutDate : Int
  dueDate : Int
  returnDate : Option Int := none
  fineCharged : ℚ := 0
deriving DecidableEq

/-- member.py: dataclass Member.  borrowedBooks maps isbn to checkoutDate. -/
structure Member where
  memberId : String
  name : String
  borrowedBooks : List (String × Int) := []
  borrowingHistory : List BorrowRecord := []
  fineBalance : ℚ := 0
deriving DecidableEq

/-- library.py: class Library, with its two dict collections. -/
structure Library where
  books : List (String × Book) := []
  members : List (String × Member) := []
deriving DecidableEq

/-- The exceptions of exceptions.py, with the distinct
CheckoutRuleViolation messages split into distinct constructors, and the
ValueError duplications of addBook and registerMember. -/
inductive LibraryError where
  | memberNotFound
  | bookNotFound
  | duplicateBook
  | duplicateMember
  | fineBlock
  | unavailable
  | borrowLimit
  | duplicateLoan
  | notBorrowed
  | invalidDate
deriving DecidableEq

/-! ### Association lists: the dict operations used by the code -/

/-- Dict lookup: value stored at key `k`, if any. -/
def alookup (k : String) : List (String × β) → Option β
  | [] => none
  | (k₁, v) :: rest => if k₁ = k then some v else alookup k rest

/-- Dict assignment to an existing key: replace the stored value in place. -/
def aset (k : String) (v : β) : List (String × β) → List (String × β)
  | [] => []
  | (k₁, v₁) :: rest => if k₁ = k then (k₁, v) :: rest else (k₁, v₁) :: aset k v rest

/-- Dict assignment `d[k] = v`: update in place when present, else append. -/
def ainsert (k : String) (v : β) (l : List (String × β)) : List (String × β) :=
  if (alookup k l).isSome then aset k v l else l ++ [(k, v)]

/-- Dict deletion `del d[k]`. -/
def aerase (k : String) : List (String × β) → List (String × β)
  | [] => []
  | (k₁, v₁) :: rest => if k₁ = k then rest else (k₁, v₁) :: aerase k rest

/-! ### The constants of class Library -/

def maxBorrowed : Nat := 3
def loanDays : Int := 14
def finePerDay : ℚ := 1/2
def fineBlockThreshold : ℚ := 10

/-- Library._due_date. -/
def dueDate (checkoutDate : Int) : Int :=
  checkoutDate + loanDays

/-- Library._fine_for_loan. -/
def fineForLoan (checkoutDate asOf : Int) : ℚ :=
  if asOf ≤ dueDate checkoutDate then 0
  else round2 (((asOf - dueDate checkoutDate : Int) : ℚ) * finePerDay)

/-- The running total accumulated by the loop of Library.calculateFine. -/
def totalFineRaw (loans : List (String × Int)) (asOf : Int) : ℚ :=
  loans.foldl (fun total p => total + fineForLoan p.2 asOf) 0

/-- The value Library.calculateFine returns for a member whose active
loans are `loans`: the per-loan fines summed, the sum rounded to cents. -/
def totalFine (loans : List (String × Int)) (asOf : Int) : ℚ :=
  round2 (totalFineRaw loans asOf)

/-- Library.calculateFine as a stateful operation: it only reads, so the
state it returns is the state it received. -/
def calculateFineOp (lib : Library) (memberId : String) (asOf : Int) :
    Except LibraryError ℚ × Library :=
  match alookup memberId lib.members with
  | none => (.error .memberNotFound, lib)
  | some member => (.ok (totalFine member.borrowedBooks asOf), lib)

/-- The value computed by Library.calculateFine. -/
def calculateFine (lib : Library) (memberId : String) (asOf : Int) :
    Except LibraryError ℚ :=
  (calculateFineOp lib memberId asOf).1

/-- Library.addBook (the TypeError guard is enforced by the type of the
argument). -/
def addBook (lib : Library) (book : Book) : Except LibraryError Unit × Library :=
  if (alookup book.isbn lib.books).isSome then (.error .duplicateBook, lib)
  else (.ok (), { lib with books := lib.books ++ [(book.isbn, book)] })

/-- Library.registerMember. -/
def registerMember (lib : Library) (member : Member) :
    Except LibraryError Unit × Library :=
  if (alookup member.memberId lib.members).isSome then (.error .duplicateMember, lib)
  else (.ok (), { lib with members := lib.members ++ [(member.memberId, member)] })

/-- Library.checkoutBook.  The two calls to self.calculateFine are made
with the member present in self.members, where they return
`totalFine member.borrowedBooks checkoutDate` for the current state of
the member object (lemma calculateFine_eq below).  The assignment to
member.fineBalance made before the rule checks mutates the stored member,
so each rejection after it returns the refreshed state lib1. -/
def checkoutBook (lib : Library) (memberId isbn : String) (checkoutDate : Int) :
    Except LibraryError Unit × Library :=
  match alookup memberId lib.members with
  | none => (.error .memberNotFound, lib)
  | some member =>
    match alookup isbn lib.books with
    | none => (.error .bookNotFound, lib)
    | some book =>
      let member1 := { member with fineBalance := totalFine member.borrowedBooks checkoutDate }
      let lib1 := { lib with members := aset memberId member1 lib.members }
      if fineBlockThreshold < member1.fineBalance then (.error .fineBlock, lib1)
      else if book.isAvailable = false then (.error .unavailable, lib1)
      else if maxBorrowed ≤ member1.borrowedBooks.length then (.error .borrowLimit, lib1)
      else if (alookup isbn member1.borrowedBooks).isSome then (.error .duplicateLoan, lib1)
      else
        let member2 := { member1 with
          borrowedBooks := ainsert isbn checkoutDate member1.borrowedBooks
          borrowingHistory := member1.borrowingHistory ++
            [{ isbn := isbn, checkoutDate := checkoutDate, dueDate := dueDate checkoutDate }] }
        let book2 := { book with isAvailable := false }
        let lib2 : Library := { books := aset isbn book2 lib1.books,
                                members := aset memberId member2 lib1.members }
        let member3 := { member2 with
          fineBalance := totalFine member2.borrowedBooks checkoutDate }
        (.ok (), { lib2 with members := aset memberId member3 lib2.members })

/-- One record of the member history is open for `isbn` when its isbn
matches and its returnDate is still unset. -/
def isOpenFor (isbn : String) (r : BorrowRecord) : Bool :=
  r.isbn == isbn && r.returnDate == none

/-- The reversed-history loop of Library.returnBook: close the most
recent record that is open for `isbn` (set returnDate and fineCharged),
leaving every other record as it is; no change when no record is open. -/
def closeLastOpen (isbn : String) (returnDate : Int) (fine : ℚ) :
    List BorrowRecord → List BorrowRecord
  | [] => []
  | r :: rest =>
    if rest.any (isOpenFor isbn) then r :: closeLastOpen isbn returnDate fine rest
    else if isOpenFor isbn r then
      { r with returnDate := some returnDate, fineCharged := fine } :: rest
    else r :: closeLastOpen isbn returnDate fine rest

/-- Library.returnBook. -/
def returnBook (lib : Library) (memberId isbn : String) (returnDate : Int) :
    Except LibraryError ℚ × Library :=
  match alookup memberId lib.members with
  | none => (.error .memberNotFound, lib)
  | some member =>
    match alookup isbn lib.books with
    | none => (.error .bookNotFound, lib)
    | some book =>
      match alookup isbn member.borrowedBooks with
      | none => (.error .notBorrowed, lib)
      | some checkoutDate =>
        if returnDate < checkoutDate then (.error .invalidDate, lib)
        else
          let fineForThisBook := fineForLoan checkoutDate returnDate
          let member1 := { member with
            borrowingHistory :=
              closeLastOpen isbn returnDate fineForThisBook member.borrowingHistory
            borrowedBooks := aerase isbn member.borrowedBooks }
          let book1 := { book with isAvailable := true }
          let lib1 : Library := { books := aset isbn book1 lib.books,
                                  members := aset memberId member1 lib.members }
          let member2 := { member1 with
            fineBalance := totalFine member1.borrowedBooks returnDate }
          (.ok fineForThisBook, { lib1 with members := aset memberId member2 lib1.members })

/-- Library.getAvailableBooks. -/
def getAvailableBooks (lib : Library) : List Book :=
  (lib.books.map Prod.snd).filter (·.isAvailable)

/-- Library.getMemberBorrowingHistory. -/
def getMemberBorrowingHistory (lib : Library) (memberId : String) :
    Except LibraryError (List BorrowRecord) :=
  match alookup memberId lib.members with
  | none => .error .memberNotFound
  | some member => .ok member.borrowingHistory

/-- The member stored after the pre-check fineBalance refresh of
checkoutBook. -/
def refreshedMember (mem : Member) (d : Int) : Member :=
  { mem with fineBalance := totalFine mem.borrowedBooks d }

/-- The library state after the pre-check fineBalance refresh of
checkoutBook. -/
def refreshedLib (lib : Library) (memberId : String) (mem : Member) (d : Int) : Library :=
  { lib with members := aset memberId (refreshedMember mem d) lib.members }

/-- The member stored by a successful checkout: the new loan inserted, an
open BorrowRecord appended, the fineBalance refreshed over the enlarged
loan set. -/
def checkedOutMember (mem : Member) (isbn : String) (d : Int) : Member :=
  { mem with
    borrowedBooks := ainsert isbn d mem.borrowedBooks
    borrowingHistory := mem.borrowingHistory ++
      [{ isbn := isbn, checkoutDate := d, dueDate := dueDate d }]
    fineBalance := totalFine (ainsert isbn d mem.borrowedBooks) d }

/-- The full library state produced by a successful checkout. -/
def checkedOutLib (lib : Library) (memberId : String) (mem : Member)
    (isbn : String) (bk : Book) (d : Int) : Library :=
  { books := aset isbn { bk with isAvailable := false } lib.books,
    members := aset memberId (checkedOutMember mem isbn d) lib.members }

/-- The member stored by a successful return: the loan erased, its open
history record closed, the fineBalance refreshed over the remaining
loans. -/
def returnedMember (mem : Member) (isbn : String) (c d : Int) : Member :=
  { mem with
    borrowingHistory := closeLastOpen isbn d (fineForLoan c d) mem.borrowingHistory
    borrowedBooks := aerase isbn mem.borrowedBooks
    fineBalance := totalFine (aerase isbn mem.borrowedBooks) d }

/-- The full library state produced by a successful return. -/
def returnedLib (lib : Library) (memberId : String) (mem : Member)
    (isbn : String) (bk : Book) (c d : Int) : Library :=
  { books := aset isbn { bk with isAvailable := true } lib.books,
    members := aset memberId (returnedMember mem isbn c d) lib.members }

/-- Number of members whose active loans contain the isbn. -/
def holders (members : List (String × Member)) (isbn : String) : Nat :=
  members.countP fun p => (alookup isbn p.2.borrowedBooks).isSome

/-- One public operation of the Library, applied with the arguments the
callers of the repository construct them with: addBook receives a fresh
Book (its constructor defaults isAvailable to true), registerMember a
fresh Member (the dataclass defaults: no loans, empty history, zero
balance).  Failed operations also step, to the state they leave behind. -/
inductive Step : Library → Library → Prop where
  | addBook (lib : Library) (isbn title author : String) :
      Step lib (addBook lib { isbn := isbn, title := title, author := author,
                              isAvailable := true }).2
  | registerMember (lib : Library) (memberId nm : String) :
      Step lib (registerMember lib { memberId := memberId, name := nm }).2
  | checkoutBook (lib : Library) (memberId isbn : String) (d : Int) :
      Step lib (checkoutBook lib memberId isbn d).2
  | returnBook (lib : Library) (memberId isbn : String) (d : Int) :
      Step lib (returnBook lib memberId isbn d).2

/-- States reachable from the empty library by the public operations. -/
inductive Reachable : Library → Prop where
  | init : Reachable { books := [], members := [] }
  | step {lib lib₁ : Library} : Reachable lib → Step lib lib₁ → Reachable lib₁

/-- The inductive state invariant: loan keys are distinct, every member
holds at most maxBorrowed books, a catalogued book is unavailable
exactly when one member holds it, no book has two holders, and loans
only reference catalogued books. -/
structure WF (lib : Library) : Prop where
  loans_nodup : ∀ p ∈ lib.members, ((p : String × Member).2.borrowedBooks.map Prod.fst).Nodup
  loans_le : ∀ p ∈ lib.members, (p : String × Member).2.borrowedBooks.length ≤ maxBorrowed
  avail_iff : ∀ isbn bk, alookup isbn lib.books = some bk →
      (bk.isAvailable = false ↔ holders lib.members isbn = 1)
  holders_le : ∀ isbn, holders lib.members isbn ≤ 1
  no_book_no_holder : ∀ isbn, alookup isbn lib.books = none → holders lib.members isbn = 0

/-- The demo scenario of the repository (conftest fixture and demo.py),
with 2026-02-01 as day 0: four books, one member, three books checked
out on day 0. -/
def scenarioLib : Library :=
  let l := (addBook { books := [], members := [] }
    { isbn := "111", title := "A", author := "a", isAvailable := true }).2
  let l := (addBook l { isbn := "222", title := "B", author := "b", isAvailable := true }).2
  let l := (addBook l { isbn := "333", title := "C", author := "c", isAvailable := true }).2
  let l := (addBook l { isbn := "444", title := "D", author := "d", isAvailable := true }).2
  let l := (registerMember l { memberId := "M1", name := "S" }).2
  let l := (checkoutBook l "M1" "111" 0).2
  let l := (checkoutBook l "M1" "222" 0).2
  (checkoutBook l "M1" "333" 0).2

/-- The member record stored for M1 in scenarioLib. -/
def scenarioMember : Member :=
  { memberId := "M1", name := "S",
    borrowedBooks := [("111", 0), ("222", 0), ("333", 0)],
    borrowingHistory :=
      [{ isbn := "111", checkoutDate := 0, dueDate := 14 },
       { isbn := "222", checkoutDate := 0, dueDate := 14 },
       { isbn := "333", checkoutDate := 0, dueDate := 14 }],
    fineBalance := 0 }

/-- A state whose stored fineBalance snapshot (0) lags far behind the
live balance: M1 checked out book B2 on day 0 and holds it still.  This
is the state produced by addBook B1, addBook B2, registerMember M1,
checkoutBook M1 B2 on day 0. -/
def staleLib : Library :=
  { books :=
      [("B1", { isbn := "B1", title := "t1", author := "a1", isAvailable := true }),
       ("B2", { isbn := "B2", title := "t2", author := "a2", isAvailable := false })],
    members :=
      [("M1", { memberId := "M1", name := "n",
                borrowedBooks := [("B2", 0)],
                borrowingHistory := [{ isbn := "B2", checkoutDate := 0, dueDate := 14 }],
                fineBalance := 0 })] }

/-! ### Lemmas -/

/-! ### Association list lemmas -/

theorem alookup_append_of_some {l₁ l₂ : List (String × β)} {k : String} {v : β}
    (h : alookup k l₁ = some v) : alookup k (l₁ ++ l₂) = some v := by
  induction l₁ with
  | nil => simp [alookup] at h
  | cons p rest ih =>
    obtain ⟨a, b⟩ := p
    rw [alookup] at h
    rw [List.cons_append, alookup]
    by_cases hk : a = k
    · rwa [if_pos hk] at h ⊢
    · rw [if_neg hk] at h ⊢
      exact ih h

theorem alookup_append_of_none {l₁ l₂ : List (String × β)} {k : String}
    (h : alookup k l₁ = none) : alookup k (l₁ ++ l₂) = alookup k l₂ := by
  induction l₁ with
  | nil => simp
  | cons p rest ih =>
    obtain ⟨a, b⟩ := p
    rw [alookup] at h
    rw [List.cons_append, alookup]
    by_cases hk : a = k
    · rw [if_pos hk] at h
      exact absurd h (by simp)
    · rw [if_neg hk] at h
      rw [if_neg hk]
      exact ih h

theorem alookup_aset_self {l : List (String × β)} {k : String} (w : β)
    (h : (alookup k l).isSome) : alookup k (aset k w l) = some w := by
  induction l with
  | nil => simp [alookup] at h
  | cons p rest ih =>
    obtain ⟨a, b⟩ := p
    rw [alookup] at h
    rw [aset]
    by_cases hk : a = k
    · rw [if_pos hk, alookup, if_pos hk]
    · rw [if_neg hk] at h
      rw [if_neg hk, alookup, if_neg hk]
      exact ih h

theorem alookup_aset_ne {l : List (String × β)} {k k₁ : String} {v : β}
    (h : k₁ ≠ k) : alookup k₁ (aset k v l) = alookup k₁ l := by
  induction l with
  | nil => simp [aset]
  | cons p rest ih =>
    obtain ⟨a, b⟩ := p
    rw [aset]
    by_cases hk : a = k
    · have ha : ¬ a = k₁ := fun hc => h (hc ▸ hk)
      rw [if_pos hk, alookup, alookup, if_neg ha, if_neg ha]
    · rw [if_neg hk, alookup, alookup]
      by_cases ha : a = k₁
      · rw [if_pos ha, if_pos ha]
      · rw [if_neg ha, if_neg ha]
        exact ih

theorem aset_aset {l : List (String × β)} {k : String} {v w : β} :
    aset k w (aset k v l) = aset k w l := by
  induction l with
  | nil => simp [aset]
  | cons p rest ih =>
    obtain ⟨a, b⟩ := p
    rw [aset]
    by_cases hk : a = k
    · rw [if_pos hk, aset, if_pos hk, aset, if_pos hk]
    · rw [if_neg hk, aset, if_neg hk, aset, if_neg hk, ih]

theorem mem_aset {l : List (String × β)} {k : String} {v : β} {p : String × β}
    (h : p ∈ aset k v l) : p ∈ l ∨ p = (k, v) := by
  induction l with
  | nil => simp [aset] at h
  | cons q rest ih =>
    obtain ⟨a, b⟩ := q
    rw [aset] at h
    by_cases hk : a = k
    · rw [if_pos hk] at h
      rcases List.mem_cons.1 h with h₁ | h₁
      · exact Or.inr (h₁.trans (by rw [hk]))
      · exact Or.inl (List.mem_cons_of_mem _ h₁)
    · rw [if_neg hk] at h
      rcases List.mem_cons.1 h with h₁ | h₁
      · exact Or.inl (h₁ ▸ List.mem_cons_self _ _)
      · rcases ih h₁ with h₂ | h₂
        · exact Or.inl (List.mem_cons_of_mem _ h₂)
        · exact Or.inr h₂

theorem alookup_mem {l : List (String × β)} {k : String} {v : β}
    (h : alookup k l = some v) : (k, v) ∈ l := by
  induction l with
  | nil => simp [alookup] at h
  | cons p rest ih =>
    obtain ⟨a, b⟩ := p
    rw [alookup] at h
    by_cases hk : a = k
    · rw [if_pos hk] at h
      have hb : b = v := by simpa using h
      rw [← hk, ← hb]
      exact List.mem_cons_self _ _
    · rw [if_neg hk] at h
      exact List.mem_cons_of_mem _ (ih h)

theorem map_fst_aset {l : List (String × β)} {k : String} {v : β} :
    (aset k v l).map Prod.fst = l.map Prod.fst := by
  induction l with
  | nil => simp [aset]
  | cons p rest ih =>
    obtain ⟨a, b⟩ := p
    rw [aset]
    by_cases hk : a = k
    · rw [if_pos hk]
      simp
    · rw [if_neg hk]
      simpa using ih

theorem countP_aset {l : List (String × β)} {k : String} {m v : β}
    (p : String × β → Bool) (h : alookup k l = some m) :
    (aset k v l).countP p + (if p (k, m) then 1 else 0) =
      l.countP p + (if p (k, v) then 1 else 0) := by
  induction l with
  | nil => simp [alookup] at h
  | cons q rest ih =>
    obtain ⟨a, b⟩ := q
    rw [alookup] at h
    rw [aset]
    by_cases hk : a = k
    · rw [if_pos hk] at h
      have hb : b = m := by simpa using h
      subst hb
      rw [if_pos hk, List.countP_cons, List.countP_cons, hk]
      omega
    · rw [if_neg hk] at h
      rw [if_neg hk, List.countP_cons, List.countP_cons]
      have := ih h
      omega

theorem alookup_aerase_self {l : List (String × β)} {k : String}
    (h : (l.map Prod.fst).Nodup) : alookup k (aerase k l) = none := by
  induction l with
  | nil => simp [aerase, alookup]
  | cons p rest ih =>
    obtain ⟨a, b⟩ := p
    rw [List.map_cons, List.nodup_cons] at h
    rw [aerase]
    by_cases hk : a = k
    · rw [if_pos hk]
      cases hrest : alookup k rest with
      | none => rfl
      | some w =>
        have hmem : k ∈ rest.map Prod.fst := by
          simpa using List.mem_map_of_mem Prod.fst (alookup_mem hrest)
        rw [← hk] at hmem
        exact absurd hmem h.1
    · rw [if_neg hk, alookup, if_neg hk]
      exact ih h.2

theorem alookup_aerase_ne {l : List (String × β)} {k k₁ : String}
    (h : k₁ ≠ k) : alookup k₁ (aerase k l) = alookup k₁ l := by
  induction l with
  | nil => simp [aerase]
  | cons p rest ih =>
    obtain ⟨a, b⟩ := p
    rw [aerase]
    by_cases hk : a = k
    · have ha : ¬ a = k₁ := fun hc => h (hc ▸ hk)
      rw [if_pos hk, alookup, if_neg ha]
    · rw [if_neg hk, alookup, alookup]
      by_cases ha : a = k₁
      · rw [if_pos ha, if_pos ha]
      · rw [if_neg ha, if_neg ha]
        exact ih

theorem length_aerase {l : List (String × β)} {k : String} {v : β}
    (h : alookup k l = some v) : (aerase k l).length + 1 = l.length := by
  induction l with
  | nil => simp [alookup] at h
  | cons p rest ih =>
    obtain ⟨a, b⟩ := p
    rw [alookup] at h
    rw [aerase]
    by_cases hk : a = k
    · rw [if_pos hk]
      simp
    · rw [if_neg hk] at h
      rw [if_neg hk]
      simpa using ih h

theorem sublist_aerase (k : String) (l : List (String × β)) :
    (aerase k l).Sublist l := by
  induction l with
  | nil => simp [aerase]
  | cons p rest ih =>
    obtain ⟨a, b⟩ := p
    rw [aerase]
    by_cases hk : a = k
    · rw [if_pos hk]
      exact List.sublist_cons_self _ _
    · rw [if_neg hk]
      exact List.Sublist.cons₂ _ ih

theorem nodup_fst_aerase {l : List (String × β)} {k : String}
    (h : (l.map Prod.fst).Nodup) : ((aerase k l).map Prod.fst).Nodup :=
  List.Nodup.sublist (List.Sublist.map Prod.fst (sublist_aerase k l)) h

theorem not_mem_fst_of_alookup_none {l : List (String × β)} {k : String}
    (h : alookup k l = none) : k ∉ l.map Prod.fst := by
  induction l with
  | nil => simp
  | cons p rest ih =>
    obtain ⟨a, b⟩ := p
    rw [alookup] at h
    by_cases hk : a = k
    · rw [if_pos hk] at h
      exact absurd h (by simp)
    · rw [if_neg hk] at h
      intro hmem
      rcases List.mem_cons.1 hmem with h₁ | h₁
      · exact hk h₁.symm
      · exact ih h h₁

theorem nodup_fst_ainsert {l : List (String × β)} {k : String} {v : β}
    (hnone : alookup k l = none) (h : (l.map Prod.fst).Nodup) :
    ((ainsert k v l).map Prod.fst).Nodup := by
  rw [ainsert, hnone]
  simp only [Option.isSome_none, Bool.false_eq_true, if_false, List.map_append,
    List.map_cons, List.map_nil]
  rw [List.nodup_append]
  refine ⟨h, List.nodup_singleton _, ?_⟩
  intro a ha
  simp only [List.mem_singleton]
  intro hc
  exact not_mem_fst_of_alookup_none hnone (hc ▸ ha)

theorem ainsert_of_none {l : List (String × β)} {k : String} {v : β}
    (h : alookup k l = none) : ainsert k v l = l ++ [(k, v)] := by
  rw [ainsert, h]
  simp

theorem alookup_ainsert_self {l : List (String × β)} {k : String} (v : β)
    (h : alookup k l = none) : alookup k (ainsert k v l) = some v := by
  rw [ainsert_of_none h, alookup_append_of_none h, alookup, if_pos rfl]

theorem alookup_ainsert_ne {l : List (String × β)} {k k₁ : String} {v : β}
    (hnone : alookup k l = none) (h : k₁ ≠ k) :
    alookup k₁ (ainsert k v l) = alookup k₁ l := by
  rw [ainsert_of_none hnone]
  cases h₁ : alookup k₁ l with
  | some w => exact alookup_append_of_some h₁
  | none =>
    rw [alookup_append_of_none h₁, alookup, if_neg (fun hc => h hc.symm), alookup]

/-! ### Rounding lemmas -/

theorem roundHalfEven_intCast (n : ℤ) : roundHalfEven (n : ℚ) = n := by
  rw [roundHalfEven]
  simp only [Int.floor_intCast, sub_self]
  rw [if_pos (by norm_num)]

/-- A whole number of cents is a fixed point of round2. -/
theorem round2_eq_self {x : ℚ} {z : ℤ} (h : x * 100 = (z : ℚ)) : round2 x = x := by
  rw [round2, h, roundHalfEven_intCast, ← h]
  field_simp

theorem round2_zero : round2 0 = 0 :=
  round2_eq_self (z := 0) (by norm_num)

/-- round2 always produces a whole number of cents. -/
theorem round2_mul_100 (x : ℚ) : round2 x * 100 = (roundHalfEven (x * 100) : ℚ) := by
  rw [round2]
  field_simp

theorem round2_round2 (x : ℚ) : round2 (round2 x) = round2 x :=
  round2_eq_self (round2_mul_100 x)

/-- Every per-loan fine is a whole number of cents, so rounding it to
cents leaves it unchanged. -/
theorem round2_fineForLoan (checkoutDate asOf : Int) :
    round2 (fineForLoan checkoutDate asOf) = fineForLoan checkoutDate asOf := by
  rw [fineForLoan]
  split
  · exact round2_zero
  · exact round2_round2 _

/-- The per-loan fine, written without the rounding: 50 cents per
overdue day.  The rounding in the code never alters the product. -/
theorem fineForLoan_eq (checkoutDate asOf : Int) :
    fineForLoan checkoutDate asOf =
      if asOf ≤ dueDate checkoutDate then 0
      else ((asOf - dueDate checkoutDate : Int) : ℚ) * finePerDay := by
  rw [fineForLoan]
  split
  · rfl
  · refine round2_eq_self (z := (asOf - dueDate checkoutDate) * 50) ?_
    rw [finePerDay]
    push_cast
    ring

/-! ### Unfolding the operations -/

theorem calculateFineOp_eq {lib : Library} {memberId : String} {mem : Member}
    (h : alookup memberId lib.members = some mem) (asOf : Int) :
    calculateFineOp lib memberId asOf = (.ok (totalFine mem.borrowedBooks asOf), lib) := by
  rw [calculateFineOp, h]

theorem calculateFine_eq {lib : Library} {memberId : String} {mem : Member}
    (h : alookup memberId lib.members = some mem) (asOf : Int) :
    calculateFine lib memberId asOf = .ok (totalFine mem.borrowedBooks asOf) := by
  rw [calculateFine, calculateFineOp_eq h]

theorem checkoutBook_memberNotFound {lib : Library} {memberId isbn : String} {d : Int}
    (h : alookup memberId lib.members = none) :
    checkoutBook lib memberId isbn d = (.error .memberNotFound, lib) := by
  rw [checkoutBook, h]

theorem checkoutBook_bookNotFound {lib : Library} {memberId isbn : String} {d : Int}
    {mem : Member} (hm : alookup memberId lib.members = some mem)
    (hb : alookup isbn lib.books = none) :
    checkoutBook lib memberId isbn d = (.error .bookNotFound, lib) := by
  rw [checkoutBook, hm, hb]

/-- Full characterization of checkoutBook once member and book resolve. -/
theorem checkoutBook_resolved {lib : Library} {memberId isbn : String} {d : Int}
    {mem : Member} {bk : Book} (hm : alookup memberId lib.members = some mem)
    (hb : alookup isbn lib.books = some bk) :
    checkoutBook lib memberId isbn d =
      if fineBlockThreshold < totalFine mem.borrowedBooks d then
        (.error .fineBlock, refreshedLib lib memberId mem d)
      else if bk.isAvailable = false then
        (.error .unavailable, refreshedLib lib memberId mem d)
      else if maxBorrowed ≤ mem.borrowedBooks.length then
        (.error .borrowLimit, refreshedLib lib memberId mem d)
      else if (alookup isbn mem.borrowedBooks).isSome then
        (.error .duplicateLoan, refreshedLib lib memberId mem d)
      else (.ok (), checkedOutLib lib memberId mem isbn bk d) := by
  rw [checkoutBook, hm, hb]
  simp only [refreshedLib, refreshedMember, checkedOutLib, checkedOutMember]
  split_ifs
  · rfl
  · rfl
  · rfl
  · rfl
  · refine Prod.ext rfl ?_
    refine congrArg₂ Library.mk rfl ?_
    rw [aset_aset, aset_aset]

theorem returnBook_memberNotFound {lib : Library} {memberId isbn : String} {d : Int}
    (h : alookup memberId lib.members = none) :
    returnBook lib memberId isbn d = (.error .memberNotFound, lib) := by
  rw [returnBook, h]

theorem returnBook_bookNotFound {lib : Library} {memberId isbn : String} {d : Int}
    {mem : Member} (hm : alookup memberId lib.members = some mem)
    (hb : alookup isbn lib.books = none) :
    returnBook lib memberId isbn d = (.error .bookNotFound, lib) := by
  rw [returnBook, hm, hb]

theorem returnBook_notBorrowed {lib : Library} {memberId isbn : String} {d : Int}
    {mem : Member} {bk : Book} (hm : alookup memberId lib.members = some mem)
    (hb : alookup isbn lib.books = some bk)
    (hl : alookup isbn mem.borrowedBooks = none) :
    returnBook lib memberId isbn d = (.error .notBorrowed, lib) := by
  simp only [returnBook, hm, hb, hl]

theorem returnBook_invalidDate {lib : Library} {memberId isbn : String} {d c : Int}
    {mem : Member} {bk : Book} (hm : alookup memberId lib.members = some mem)
    (hb : alookup isbn lib.books = some bk)
    (hl : alookup isbn mem.borrowedBooks = some c) (hd : d < c) :
    returnBook lib memberId isbn d = (.error .invalidDate, lib) := by
  simp only [returnBook, hm, hb, hl]
  rw [if_pos hd]

theorem returnBook_success {lib : Library} {memberId isbn : String} {d c : Int}
    {mem : Member} {bk : Book} (hm : alookup memberId lib.members = some mem)
    (hb : alookup isbn lib.books = some bk)
    (hl : alookup isbn mem.borrowedBooks = some c) (hd : ¬ d < c) :
    returnBook lib memberId isbn d =
      (.ok (fineForLoan c d), returnedLib lib memberId mem isbn bk c d) := by
  simp only [returnBook, hm, hb, hl]
  rw [if_neg hd]
  simp only [returnedLib, returnedMember]
  refine Prod.ext rfl ?_
  refine congrArg₂ Library.mk rfl ?_
  rw [aset_aset]

/-! ### The reversed-history search of returnBook -/

/-- closeLastOpen closes exactly the most recent open record for the
isbn: the history splits as pre ++ r :: post where r is open for the
isbn, no record in post is, and only r is rewritten. -/
theorem closeLastOpen_spec (isbn : String) (rd : Int) (f : ℚ)
    (l : List BorrowRecord) (h : l.any (isOpenFor isbn) = true) :
    ∃ pre r post, l = pre ++ r :: post ∧ isOpenFor isbn r = true ∧
      post.any (isOpenFor isbn) = false ∧
      closeLastOpen isbn rd f l =
        pre ++ { r with returnDate := some rd, fineCharged := f } :: post := by
  induction l with
  | nil => simp at h
  | cons r rest ih =>
    rw [closeLastOpen]
    by_cases hrest : rest.any (isOpenFor isbn) = true
    · rw [if_pos hrest]
      obtain ⟨pre, r₁, post, h₁, h₂, h₃, h₄⟩ := ih hrest
      exact ⟨r :: pre, r₁, post, by rw [h₁, List.cons_append], h₂, h₃,
        by rw [h₄, List.cons_append]⟩
    · rw [if_neg hrest]
      have hr : isOpenFor isbn r = true := by
        rcases List.any_eq_true.1 h with ⟨x, hx, hopen⟩
        rcases List.mem_cons.1 hx with hx₁ | hx₁
        · exact hx₁ ▸ hopen
        · exact absurd (List.any_eq_true.2 ⟨x, hx₁, hopen⟩) hrest
      rw [if_pos hr]
      exact ⟨[], r, rest, rfl, hr, by simpa using hrest, rfl⟩

/-- When no record of the history is open for the isbn, the loop of
returnBook changes nothing. -/
theorem closeLastOpen_of_none (isbn : String) (rd : Int) (f : ℚ)
    (l : List BorrowRecord) (h : l.any (isOpenFor isbn) = false) :
    closeLastOpen isbn rd f l = l := by
  induction l with
  | nil => rfl
  | cons r rest ih =>
    rw [List.any_cons] at h
    rcases Bool.or_eq_false_iff.1 h with ⟨h₁, h₂⟩
    rw [closeLastOpen, if_neg (by rw [h₂]; simp), if_neg (by rw [h₁]; simp), ih h₂]

/-! ### Reachable states and the state invariant -/

theorem alookup_none_of_append {l₁ l₂ : List (String × β)} {k : String}
    (h : alookup k (l₁ ++ l₂) = none) : alookup k l₁ = none := by
  cases h₁ : alookup k l₁ with
  | none => rfl
  | some v => rw [alookup_append_of_some h₁] at h; cases h

theorem holders_aset_congr {members : List (String × Member)} {memberId : String}
    {mem m₁ : Member} (h : alookup memberId members = some mem) (isbn : String)
    (hpred : (alookup isbn m₁.borrowedBooks).isSome =
      (alookup isbn mem.borrowedBooks).isSome) :
    holders (aset memberId m₁ members) isbn = holders members isbn := by
  have hc := countP_aset (m := mem) (v := m₁)
    (fun p => (alookup isbn p.2.borrowedBooks).isSome) h
  simp only [holders]
  simp only [hpred] at hc
  omega

theorem holders_aset_add {members : List (String × Member)} {memberId : String}
    {mem m₁ : Member} (h : alookup memberId members = some mem) (isbn : String)
    (hold : (alookup isbn mem.borrowedBooks).isSome = false)
    (hnew : (alookup isbn m₁.borrowedBooks).isSome = true) :
    holders (aset memberId m₁ members) isbn = holders members isbn + 1 := by
  have hc := countP_aset (m := mem) (v := m₁)
    (fun p => (alookup isbn p.2.borrowedBooks).isSome) h
  simp only [holders]
  simp only [hold, hnew, if_pos, if_neg, Bool.false_eq_true, if_false, if_true] at hc
  omega

theorem holders_aset_sub {members : List (String × Member)} {memberId : String}
    {mem m₁ : Member} (h : alookup memberId members = some mem) (isbn : String)
    (hold : (alookup isbn mem.borrowedBooks).isSome = true)
    (hnew : (alookup isbn m₁.borrowedBooks).isSome = false) :
    holders (aset memberId m₁ members) isbn + 1 = holders members isbn := by
  have hc := countP_aset (m := mem) (v := m₁)
    (fun p => (alookup isbn p.2.borrowedBooks).isSome) h
  simp only [holders]
  simp only [hold, hnew, if_pos, if_neg, Bool.false_eq_true, if_false, if_true] at hc
  omega

theorem holders_append_empty {members : List (String × Member)} {m₁ : Member}
    (k : String) (hempty : m₁.borrowedBooks = []) (isbn : String) :
    holders (members ++ [(k, m₁)]) isbn = holders members isbn := by
  rw [holders, List.countP_append]
  simp [hempty, alookup, holders]

theorem holders_pos {members : List (String × Member)} {memberId isbn : String}
    {mem : Member} (h : alookup memberId members = some mem)
    (hl : (alookup isbn mem.borrowedBooks).isSome) : 0 < holders members isbn :=
  List.countP_pos_iff.2 ⟨(memberId, mem), alookup_mem h, by simpa using hl⟩

/-- A held book is catalogued and marked unavailable (in a WF state). -/
theorem held_book_unavailable {lib : Library} (hwf : WF lib)
    {memberId isbn : String} {mem : Member}
    (hm : alookup memberId lib.members = some mem)
    (hl : (alookup isbn mem.borrowedBooks).isSome) :
    ∃ bk, alookup isbn lib.books = some bk ∧ bk.isAvailable = false := by
  have hpos := holders_pos hm hl
  have hone : holders lib.members isbn = 1 := by
    have := hwf.holders_le isbn
    omega
  cases hb : alookup isbn lib.books with
  | none =>
    rw [hwf.no_book_no_holder isbn hb] at hpos
    exact absurd hpos (by simp)
  | some bk =>
    exact ⟨bk, rfl, (hwf.avail_iff isbn bk hb).2 hone⟩

theorem wf_addBook {lib : Library} (hwf : WF lib) {b : Book}
    (hav : b.isAvailable = true) : WF (addBook lib b).2 := by
  by_cases h : (alookup b.isbn lib.books).isSome
  · rw [addBook, if_pos h]
    exact hwf
  · rw [addBook, if_neg h]
    have hnone : alookup b.isbn lib.books = none := by
      cases hx : alookup b.isbn lib.books with
      | none => rfl
      | some v => rw [hx] at h; exact absurd rfl h
    refine ⟨hwf.loans_nodup, hwf.loans_le, ?_, hwf.holders_le, ?_⟩
    · intro isbn bk hbk
      cases h₁ : alookup isbn lib.books with
      | some bk₀ =>
        rw [alookup_append_of_some h₁] at hbk
        injection hbk with h₂
        subst h₂
        exact hwf.avail_iff isbn _ h₁
      | none =>
        rw [alookup_append_of_none h₁, alookup] at hbk
        by_cases h₂ : b.isbn = isbn
        · rw [if_pos h₂] at hbk
          cases hbk
          rw [hav, hwf.no_book_no_holder isbn h₁]
          simp
        · rw [if_neg h₂, alookup] at hbk
          cases hbk
    · intro isbn hbk
      exact hwf.no_book_no_holder isbn (alookup_none_of_append hbk)

theorem wf_registerMember {lib : Library} (hwf : WF lib) {m : Member}
    (hempty : m.borrowedBooks = []) : WF (registerMember lib m).2 := by
  by_cases h : (alookup m.memberId lib.members).isSome
  · rw [registerMember, if_pos h]
    exact hwf
  · rw [registerMember, if_neg h]
    refine ⟨?_, ?_, ?_, ?_, ?_⟩
    · intro p hp
      rcases List.mem_append.1 hp with h₁ | h₁
      · exact hwf.loans_nodup p h₁
      · rw [List.mem_singleton.1 h₁]
        simp [hempty]
    · intro p hp
      rcases List.mem_append.1 hp with h₁ | h₁
      · exact hwf.loans_le p h₁
      · rw [List.mem_singleton.1 h₁]
        simp [hempty]
    · intro isbn bk hbk
      rw [holders_append_empty _ hempty]
      exact hwf.avail_iff isbn bk hbk
    · intro isbn
      rw [holders_append_empty _ hempty]
      exact hwf.holders_le isbn
    · intro isbn hbk
      rw [holders_append_empty _ hempty]
      exact hwf.no_book_no_holder isbn hbk

theorem wf_refreshedLib {lib : Library} (hwf : WF lib) {memberId : String}
    {mem : Member} (hm : alookup memberId lib.members = some mem) (d : Int) :
    WF (refreshedLib lib memberId mem d) := by
  have hbooks : (refreshedLib lib memberId mem d).books = lib.books := rfl
  have hmembers : (refreshedLib lib memberId mem d).members =
      aset memberId (refreshedMember mem d) lib.members := rfl
  have hsame : ∀ isbn, holders (refreshedLib lib memberId mem d).members isbn =
      holders lib.members isbn := by
    intro isbn
    rw [hmembers]
    exact holders_aset_congr hm isbn rfl
  refine ⟨?_, ?_, ?_, ?_, ?_⟩
  · intro p hp
    rcases mem_aset (hmembers ▸ hp) with h₁ | h₁
    · exact hwf.loans_nodup p h₁
    · rw [h₁]
      exact hwf.loans_nodup (memberId, mem) (alookup_mem hm)
  · intro p hp
    rcases mem_aset (hmembers ▸ hp) with h₁ | h₁
    · exact hwf.loans_le p h₁
    · rw [h₁]
      exact hwf.loans_le (memberId, mem) (alookup_mem hm)
  · intro isbn bk hbk
    rw [hsame]
    exact hwf.avail_iff isbn bk (hbooks ▸ hbk)
  · intro isbn
    rw [hsame]
    exact hwf.holders_le isbn
  · intro isbn hbk
    rw [hsame]
    exact hwf.no_book_no_holder isbn (hbooks ▸ hbk)

theorem length_ainsert_of_none {l : List (String × β)} {k : String} {v : β}
    (h : alookup k l = none) : (ainsert k v l).length = l.length + 1 := by
  rw [ainsert_of_none h]
  simp

theorem wf_checkedOutLib {lib : Library} (hwf : WF lib) {memberId isbn : String}
    {mem : Member} {bk : Book} (hm : alookup memberId lib.members = some mem)
    (hb : alookup isbn lib.books = some bk) (d : Int)
    (hav : bk.isAvailable = true) (hlen : mem.borrowedBooks.length < maxBorrowed)
    (hnew : alookup isbn mem.borrowedBooks = none) :
    WF (checkedOutLib lib memberId mem isbn bk d) := by
  have hmembers : (checkedOutLib lib memberId mem isbn bk d).members =
      aset memberId (checkedOutMember mem isbn d) lib.members := rfl
  have hbooks : (checkedOutLib lib memberId mem isbn bk d).books =
      aset isbn { bk with isAvailable := false } lib.books := rfl
  have hloans : (checkedOutMember mem isbn d).borrowedBooks =
      ainsert isbn d mem.borrowedBooks := rfl
  have hold : (alookup isbn mem.borrowedBooks).isSome = false := by
    rw [hnew]
    rfl
  have hnew₁ : (alookup isbn (checkedOutMember mem isbn d).borrowedBooks).isSome = true := by
    rw [hloans, alookup_ainsert_self d hnew]
    rfl
  have hzero : holders lib.members isbn = 0 := by
    have hle := hwf.holders_le isbn
    have hne : holders lib.members isbn ≠ 1 := by
      intro h₁
      have := (hwf.avail_iff isbn bk hb).2 h₁
      rw [hav] at this
      cases this
    omega
  have hadd : holders (checkedOutLib lib memberId mem isbn bk d).members isbn =
      holders lib.members isbn + 1 := by
    rw [hmembers]
    exact holders_aset_add hm isbn hold hnew₁
  have hcongr : ∀ j, j ≠ isbn →
      holders (checkedOutLib lib memberId mem isbn bk d).members j =
        holders lib.members j := by
    intro j hj
    rw [hmembers]
    refine holders_aset_congr hm j ?_
    rw [hloans, alookup_ainsert_ne hnew hj]
  refine ⟨?_, ?_, ?_, ?_, ?_⟩
  · intro p hp
    rcases mem_aset (hmembers ▸ hp) with h₁ | h₁
    · exact hwf.loans_nodup p h₁
    · rw [h₁]
      exact nodup_fst_ainsert hnew (hwf.loans_nodup (memberId, mem) (alookup_mem hm))
  · intro p hp
    rcases mem_aset (hmembers ▸ hp) with h₁ | h₁
    · exact hwf.loans_le p h₁
    · rw [h₁]
      show (checkedOutMember mem isbn d).borrowedBooks.length ≤ maxBorrowed
      rw [hloans, length_ainsert_of_none hnew]
      omega
  · intro j bk₁ hbk₁
    by_cases hj : j = isbn
    · subst hj
      rw [hbooks, alookup_aset_self _ (by rw [hb]; rfl)] at hbk₁
      injection hbk₁ with h₂
      subst h₂
      refine iff_of_true rfl ?_
      rw [hadd, hzero]
    · rw [hbooks, alookup_aset_ne hj] at hbk₁
      rw [hcongr j hj]
      exact hwf.avail_iff j bk₁ hbk₁
  · intro j
    by_cases hj : j = isbn
    · subst hj
      rw [hadd, hzero]
    · rw [hcongr j hj]
      exact hwf.holders_le j
  · intro j hj
    by_cases hjj : j = isbn
    · subst hjj
      rw [hbooks, alookup_aset_self _ (by rw [hb]; rfl)] at hj
      cases hj
    · rw [hbooks, alookup_aset_ne hjj] at hj
      rw [hcongr j hjj]
      exact hwf.no_book_no_holder j hj

theorem wf_returnedLib {lib : Library} (hwf : WF lib) {memberId isbn : String}
    {mem : Member} {bk : Book} {c : Int} (hm : alookup memberId lib.members = some mem)
    (hb : alookup isbn lib.books = some bk)
    (hl : alookup isbn mem.borrowedBooks = some c) (d : Int) :
    WF (returnedLib lib memberId mem isbn bk c d) := by
  have hmembers : (returnedLib lib memberId mem isbn bk c d).members =
      aset memberId (returnedMember mem isbn c d) lib.members := rfl
  have hbooks : (returnedLib lib memberId mem isbn bk c d).books =
      aset isbn { bk with isAvailable := true } lib.books := rfl
  have hloans : (returnedMember mem isbn c d).borrowedBooks =
      aerase isbn mem.borrowedBooks := rfl
  have hmemnodup : (mem.borrowedBooks.map Prod.fst).Nodup :=
    hwf.loans_nodup (memberId, mem) (alookup_mem hm)
  have hold : (alookup isbn mem.borrowedBooks).isSome = true := by
    rw [hl]
    rfl
  have hnew₁ : (alookup isbn (returnedMember mem isbn c d).borrowedBooks).isSome = false := by
    rw [hloans, alookup_aerase_self hmemnodup]
    rfl
  have hone : holders lib.members isbn = 1 := by
    have hpos := holders_pos hm hold
    have hle := hwf.holders_le isbn
    omega
  have hsub : holders (returnedLib lib memberId mem isbn bk c d).members isbn + 1 =
      holders lib.members isbn := by
    rw [hmembers]
    exact holders_aset_sub hm isbn hold hnew₁
  have hzero : holders (returnedLib lib memberId mem isbn bk c d).members isbn = 0 := by
    omega
  have hcongr : ∀ j, j ≠ isbn →
      holders (returnedLib lib memberId mem isbn bk c d).members j =
        holders lib.members j := by
    intro j hj
    rw [hmembers]
    refine holders_aset_congr hm j ?_
    rw [hloans, alookup_aerase_ne hj]
  refine ⟨?_, ?_, ?_, ?_, ?_⟩
  · intro p hp
    rcases mem_aset (hmembers ▸ hp) with h₁ | h₁
    · exact hwf.loans_nodup p h₁
    · rw [h₁]
      exact nodup_fst_aerase hmemnodup
  · intro p hp
    rcases mem_aset (hmembers ▸ hp) with h₁ | h₁
    · exact hwf.loans_le p h₁
    · rw [h₁]
      show (returnedMember mem isbn c d).borrowedBooks.length ≤ maxBorrowed
      rw [hloans]
      exact le_trans (List.Sublist.length_le (sublist_aerase isbn mem.borrowedBooks))
        (hwf.loans_le (memberId, mem) (alookup_mem hm))
  · intro j bk₁ hbk₁
    by_cases hj : j = isbn
    · subst hj
      rw [hbooks, alookup_aset_self _ (by rw [hb]; rfl)] at hbk₁
      injection hbk₁ with h₂
      subst h₂
      refine iff_of_false (by simp) ?_
      rw [hzero]
      simp
    · rw [hbooks, alookup_aset_ne hj] at hbk₁
      rw [hcongr j hj]
      exact hwf.avail_iff j bk₁ hbk₁
  · intro j
    by_cases hj : j = isbn
    · subst hj
      rw [hzero]
      omega
    · rw [hcongr j hj]
      exact hwf.holders_le j
  · intro j hj
    by_cases hjj : j = isbn
    · subst hjj
      rw [hbooks, alookup_aset_self _ (by rw [hb]; rfl)] at hj
      cases hj
    · rw [hbooks, alookup_aset_ne hjj] at hj
      rw [hcongr j hjj]
      exact hwf.no_book_no_holder j hj

theorem wf_checkoutBook {lib : Library} (hwf : WF lib) (memberId isbn : String)
    (d : Int) : WF (checkoutBook lib memberId isbn d).2 := by
  cases hm : alookup memberId lib.members with
  | none =>
    rw [checkoutBook_memberNotFound hm]
    exact hwf
  | some mem =>
    cases hb : alookup isbn lib.books with
    | none =>
      rw [checkoutBook_bookNotFound hm hb]
      exact hwf
    | some bk =>
      rw [checkoutBook_resolved hm hb]
      split_ifs with h1 h2 h3 h4
      · exact wf_refreshedLib hwf hm d
      · exact wf_refreshedLib hwf hm d
      · exact wf_refreshedLib hwf hm d
      · exact wf_refreshedLib hwf hm d
      · have hav : bk.isAvailable = true := by
          cases hx : bk.isAvailable with
          | false => exact absurd hx h2
          | true => rfl
        have hnew : alookup isbn mem.borrowedBooks = none := by
          cases hx : alookup isbn mem.borrowedBooks with
          | none => rfl
          | some v => rw [hx] at h4; exact absurd rfl h4
        exact wf_checkedOutLib hwf hm hb d hav (by omega) hnew

theorem wf_returnBook {lib : Library} (hwf : WF lib) (memberId isbn : String)
    (d : Int) : WF (returnBook lib memberId isbn d).2 := by
  cases hm : alookup memberId lib.members with
  | none =>
    rw [returnBook_memberNotFound hm]
    exact hwf
  | some mem =>
    cases hb : alookup isbn lib.books with
    | none =>
      rw [returnBook_bookNotFound hm hb]
      exact hwf
    | some bk =>
      cases hl : alookup isbn mem.borrowedBooks with
      | none =>
        rw [returnBook_notBorrowed hm hb hl]
        exact hwf
      | some c =>
        by_cases hd : d < c
        · rw [returnBook_invalidDate hm hb hl hd]
          exact hwf
        · rw [returnBook_success hm hb hl hd]
          exact wf_returnedLib hwf hm hb hl d

theorem wf_empty : WF { books := [], members := [] } := by
  refine ⟨?_, ?_, ?_, ?_, ?_⟩ <;>
    simp [holders, alookup]

/-- Every reachable state satisfies the invariant. -/
theorem reachable_wf {lib : Library} (h : Reachable lib) : WF lib := by
  induction h with
  | init => exact wf_empty
  | step hr hs ih =>
    cases hs with
    | addBook isbn title author => exact wf_addBook ih rfl
    | registerMember memberId nm => exact wf_registerMember ih rfl
    | checkoutBook memberId isbn d => exact wf_checkoutBook ih memberId isbn d
    | returnBook memberId isbn d => exact wf_returnBook ih memberId isbn d

/-- scenarioLib is reachable from the empty library. -/
theorem scenarioLib_reachable : Reachable scenarioLib :=
  ((((((((Reachable.init.step (Step.addBook _ "111" "A" "a")).step
    (Step.addBook _ "222" "B" "b")).step
    (Step.addBook _ "333" "C" "c")).step
    (Step.addBook _ "444" "D" "d")).step
    (Step.registerMember _ "M1" "S")).step
    (Step.checkoutBook _ "M1" "111" 0)).step
    (Step.checkoutBook _ "M1" "222" 0)).step
    (Step.checkoutBook _ "M1" "333" 0))

/-! ### Frame of rejected operations -/

theorem refreshedLib_loans_frame {lib : Library} {memberId : String} {mem : Member}
    (hm : alookup memberId lib.members = some mem) (d : Int) (k : String) :
    ((alookup k (refreshedLib lib memberId mem d).members).map Member.borrowedBooks =
      (alookup k lib.members).map Member.borrowedBooks) ∧
    ((alookup k (refreshedLib lib memberId mem d).members).map Member.borrowingHistory =
      (alookup k lib.members).map Member.borrowingHistory) := by
  have hme : (refreshedLib lib memberId mem d).members =
      aset memberId (refreshedMember mem d) lib.members := rfl
  by_cases hk : k = memberId
  · subst hk
    rw [hme, alookup_aset_self _ (by rw [hm]; rfl), hm]
    exact ⟨rfl, rfl⟩
  · rw [hme, alookup_aset_ne hk]
    exact ⟨rfl, rfl⟩

theorem checkoutBook_error_frame {lib : Library} {memberId isbn : String} {d : Int}
    {e : LibraryError} (h : (checkoutBook lib memberId isbn d).1 = .error e) :
    (checkoutBook lib memberId isbn d).2.books = lib.books ∧
    (∀ k, (alookup k (checkoutBook lib memberId isbn d).2.members).map Member.borrowedBooks =
      (alookup k lib.members).map Member.borrowedBooks) ∧
    (∀ k, (alookup k (checkoutBook lib memberId isbn d).2.members).map Member.borrowingHistory =
      (alookup k lib.members).map Member.borrowingHistory) := by
  cases hm : alookup memberId lib.members with
  | none =>
    rw [checkoutBook_memberNotFound hm]
    exact ⟨rfl, fun k => rfl, fun k => rfl⟩
  | some mem =>
    cases hb : alookup isbn lib.books with
    | none =>
      rw [checkoutBook_bookNotFound hm hb]
      exact ⟨rfl, fun k => rfl, fun k => rfl⟩
    | some bk =>
      rw [checkoutBook_resolved hm hb] at h ⊢
      split_ifs at h ⊢ with h1 h2 h3 h4 <;>
        exact ⟨rfl, fun k => (refreshedLib_loans_frame hm d k).1,
          fun k => (refreshedLib_loans_frame hm d k).2⟩

theorem returnBook_error_frame {lib : Library} {memberId isbn : String} {d : Int}
    {e : LibraryError} (h : (returnBook lib memberId isbn d).1 = .error e) :
    (returnBook lib memberId isbn d).2 = lib := by
  cases hm : alookup memberId lib.members with
  | none => rw [returnBook_memberNotFound hm]
  | some mem =>
    cases hb : alookup isbn lib.books with
    | none => rw [returnBook_bookNotFound hm hb]
    | some bk =>
      cases hl : alookup isbn mem.borrowedBooks with
      | none => rw [returnBook_notBorrowed hm hb hl]
      | some c =>
        by_cases hd : d < c
        · rw [returnBook_invalidDate hm hb hl hd]
        · rw [returnBook_success hm hb hl hd] at h
          simp at h

theorem checkoutBook_fst_only_loans {lib₁ lib₂ : Library} {memberId isbn : String}
    {mem₁ mem₂ : Member} {bk : Book} {d : Int}
    (hm₁ : alookup memberId lib₁.members = some mem₁)
    (hm₂ : alookup memberId lib₂.members = some mem₂)
    (hb₁ : alookup isbn lib₁.books = some bk)
    (hb₂ : alookup isbn lib₂.books = some bk)
    (hbb : mem₁.borrowedBooks = mem₂.borrowedBooks) :
    (checkoutBook lib₁ memberId isbn d).1 = (checkoutBook lib₂ memberId isbn d).1 := by
  rw [checkoutBook_resolved hm₁ hb₁, checkoutBook_resolved hm₂ hb₂, hbb]
  split_ifs <;> rfl

/-! ### The claims -/

/-- C1: for asOf ≥ checkoutDate, fineForLoan returns 0.00 when asOf is at
most checkoutDate + 14 days, and otherwise returns
round(overdueDays * 0.50, 2) where overdueDays is the whole number of
days from the due date checkoutDate + 14 to asOf. -/
theorem fineForLoan_spec (checkoutDate asOf : Int) (h : checkoutDate ≤ asOf) :
    (asOf ≤ checkoutDate + 14 → fineForLoan checkoutDate asOf = 0) ∧
    (checkoutDate + 14 < asOf →
      fineForLoan checkoutDate asOf =
        round2 (((asOf - (checkoutDate + 14) : Int) : ℚ) * (1/2))) := by
  have hdue : dueDate checkoutDate = checkoutDate + 14 := by rw [dueDate, loanDays]
  constructor
  · intro h₁
    rw [fineForLoan, if_pos (by rw [hdue]; exact h₁)]
  · intro h₁
    rw [fineForLoan, if_neg (by rw [hdue]; omega), hdue, finePerDay]

theorem fineForLoan_spec_witness :
    fineForLoan 0 14 = 0 ∧
    fineForLoan 0 20 = round2 (((20 - (0 + 14) : Int) : ℚ) * (1/2)) :=
  ⟨(fineForLoan_spec 0 14 (by decide)).1 (by decide),
   (fineForLoan_spec 0 20 (by decide)).2 (by decide)⟩

/-- C2 counterexample: a checkout rejected with a domain error
(FineBlockError) does mutate the state: the stored fineBalance of M1 is
refreshed from the stale snapshot 0 to the live value before the rule
checks run, so the post-rejection state differs from the pre-call
state. -/
theorem checkoutBook_rejection_mutates_state :
    (checkoutBook staleLib "M1" "B1" 100).1 = .error .fineBlock ∧
    (checkoutBook staleLib "M1" "B1" 100).2 ≠ staleLib ∧
    (alookup "M1" staleLib.members).map Member.fineBalance = some 0 ∧
    (alookup "M1" (checkoutBook staleLib "M1" "B1" 100).2.members).map
      Member.fineBalance = some 43 := by
  refine ⟨?_, ?_, ?_, ?_⟩ <;> with_unfolding_all decide

/-- C2 (amended): a rejected returnBook leaves the whole state unchanged;
a rejected checkout leaves every book, every member history and every
active-loan set unchanged, but when member and book resolve it has
already refreshed the stored fineBalance of the member to the live
recomputed value totalFine(activeLoans, checkoutDate), so that one field
can change on rejection. -/
theorem rejected_request_state (lib : Library) (memberId isbn : String) (d : Int) :
    (∀ e, (returnBook lib memberId isbn d).1 = .error e →
      (returnBook lib memberId isbn d).2 = lib) ∧
    (∀ e, (checkoutBook lib memberId isbn d).1 = .error e →
      (checkoutBook lib memberId isbn d).2.books = lib.books ∧
      (∀ k, (alookup k (checkoutBook lib memberId isbn d).2.members).map
        Member.borrowedBooks = (alookup k lib.members).map Member.borrowedBooks) ∧
      (∀ k, (alookup k (checkoutBook lib memberId isbn d).2.members).map
        Member.borrowingHistory = (alookup k lib.members).map Member.borrowingHistory)) ∧
    (∀ e mem bk, alookup memberId lib.members = some mem →
      alookup isbn lib.books = some bk →
      (checkoutBook lib memberId isbn d).1 = .error e →
      alookup memberId (checkoutBook lib memberId isbn d).2.members =
        some { mem with fineBalance := totalFine mem.borrowedBooks d }) := by
  refine ⟨fun e he => returnBook_error_frame he, fun e he => checkoutBook_error_frame he,
    fun e mem bk hm hb he => ?_⟩
  rw [checkoutBook_resolved hm hb] at he ⊢
  have hme : (refreshedLib lib memberId mem d).members =
      aset memberId (refreshedMember mem d) lib.members := rfl
  split_ifs at he ⊢ with h1 h2 h3 h4 <;>
    (rw [hme, alookup_aset_self _ (by rw [hm]; rfl)]; rfl)

theorem rejected_request_state_witness :
    (returnBook staleLib "M1" "B1" 5).2 = staleLib ∧
    alookup "M1" (checkoutBook staleLib "M1" "B1" 100).2.members =
      some { memberId := "M1", name := "n", borrowedBooks := [("B2", 0)],
             borrowingHistory := [{ isbn := "B2", checkoutDate := 0, dueDate := 14 }],
             fineBalance := totalFine [("B2", 0)] 100 } := by
  have hm : alookup "M1" staleLib.members =
      some { memberId := "M1", name := "n", borrowedBooks := [("B2", 0)],
             borrowingHistory := [{ isbn := "B2", checkoutDate := 0, dueDate := 14 }],
             fineBalance := 0 } := by with_unfolding_all decide
  have hb : alookup "B1" staleLib.books =
      some { isbn := "B1", title := "t1", author := "a1", isAvailable := true } := by
    with_unfolding_all decide
  exact ⟨(rejected_request_state staleLib "M1" "B1" 5).1 .notBorrowed
      (by with_unfolding_all decide),
    (rejected_request_state staleLib "M1" "B1" 100).2.2 .fineBlock _ _ hm hb
      (by with_unfolding_all decide)⟩

/-- C3: once member and book resolve, checkout fails with FineBlockError
exactly when the live balance recomputed at call time,
totalFine(activeLoans, checkoutDate) — the value calculateFine returns —
strictly exceeds 10.00; a balance of exactly 10.00 does not block, and
the outcome is independent of the cached fineBalance snapshot. -/
theorem checkoutBook_fineBlock_iff {lib : Library} {memberId isbn : String}
    {mem : Member} {bk : Book} (d : Int)
    (hm : alookup memberId lib.members = some mem)
    (hb : alookup isbn lib.books = some bk) :
    ((checkoutBook lib memberId isbn d).1 = .error .fineBlock ↔
      fineBlockThreshold < totalFine mem.borrowedBooks d) ∧
    calculateFine lib memberId d = .ok (totalFine mem.borrowedBooks d) ∧
    (∀ q : ℚ,
      (checkoutBook
          { lib with
            members := aset memberId { mem with fineBalance := q } lib.members }
          memberId isbn d).1 =
        (checkoutBook lib memberId isbn d).1) := by
  refine ⟨?_, calculateFine_eq hm d, ?_⟩
  · rw [checkoutBook_resolved hm hb]
    split_ifs with h1 h2 h3 h4
    · exact iff_of_true rfl h1
    · exact iff_of_false (by simp) h1
    · exact iff_of_false (by simp) h1
    · exact iff_of_false (by simp) h1
    · exact iff_of_false (by simp) h1
  · intro q
    have hm₁ : alookup memberId
        ({ lib with
           members := aset memberId { mem with fineBalance := q } lib.members }).members =
        some { mem with fineBalance := q } :=
      alookup_aset_self _ (by rw [hm]; rfl)
    exact checkoutBook_fst_only_loans hm₁ hm hb hb rfl

theorem checkoutBook_fineBlock_iff_witness :
    (checkoutBook staleLib "M1" "B1" 100).1 = .error .fineBlock ∧
    ¬ (checkoutBook staleLib "M1" "B1" 20).1 = .error .fineBlock := by
  have hm : alookup "M1" staleLib.members =
      some { memberId := "M1", name := "n", borrowedBooks := [("B2", 0)],
             borrowingHistory := [{ isbn := "B2", checkoutDate := 0, dueDate := 14 }],
             fineBalance := 0 } := by with_unfolding_all decide
  have hb : alookup "B1" staleLib.books =
      some { isbn := "B1", title := "t1", author := "a1", isAvailable := true } := by
    with_unfolding_all decide
  exact ⟨(checkoutBook_fineBlock_iff 100 hm hb).1.mpr (by with_unfolding_all decide),
    fun h => absurd ((checkoutBook_fineBlock_iff 20 hm hb).1.mp h)
      (by with_unfolding_all decide)⟩

/-- C4: in every reachable state every member holds at most 3 active
loans, and a member at 3 whose next checkout passes the earlier checks
(fine not over the threshold, book available) is rejected with
BorrowLimitError with the loan set unchanged. -/
theorem borrow_limit_invariant {lib : Library} (h : Reachable lib) :
    (∀ memberId mem, alookup memberId lib.members = some mem →
      mem.borrowedBooks.length ≤ 3) ∧
    (∀ memberId isbn d mem bk, alookup memberId lib.members = some mem →
      mem.borrowedBooks.length = 3 →
      alookup isbn lib.books = some bk → bk.isAvailable = true →
      totalFine mem.borrowedBooks d ≤ fineBlockThreshold →
      (checkoutBook lib memberId isbn d).1 = .error .borrowLimit ∧
      (alookup memberId (checkoutBook lib memberId isbn d).2.members).map
        Member.borrowedBooks = some mem.borrowedBooks) := by
  have hwf := reachable_wf h
  constructor
  · intro memberId mem hm
    exact hwf.loans_le (memberId, mem) (alookup_mem hm)
  · intro memberId isbn d mem bk hm hlen hb hav hfine
    rw [checkoutBook_resolved hm hb, if_neg (not_lt.2 hfine),
      if_neg (by rw [hav]; simp), if_pos (by rw [hlen]; decide)]
    refine ⟨rfl, ?_⟩
    have hme : (refreshedLib lib memberId mem d).members =
        aset memberId (refreshedMember mem d) lib.members := rfl
    show (alookup memberId (refreshedLib lib memberId mem d).members).map
      Member.borrowedBooks = some mem.borrowedBooks
    rw [hme, alookup_aset_self _ (by rw [hm]; rfl)]
    rfl

theorem borrow_limit_invariant_witness :
    (checkoutBook scenarioLib "M1" "444" 0).1 = .error .borrowLimit := by
  have hm : alookup "M1" scenarioLib.members = some scenarioMember := by
    with_unfolding_all decide
  have hb : alookup "444" scenarioLib.books =
      some { isbn := "444", title := "D", author := "d", isAvailable := true } := by
    with_unfolding_all decide
  exact ((borrow_limit_invariant scenarioLib_reachable).2 "M1" "444" 0 scenarioMember _
    hm (by with_unfolding_all decide) hb rfl (by with_unfolding_all decide)).1

/-- C5: in every reachable state, a catalogued book is unavailable
exactly when exactly one member has its isbn among their active loans. -/
theorem availability_invariant {lib : Library} (h : Reachable lib) :
    ∀ isbn bk, alookup isbn lib.books = some bk →
      (bk.isAvailable = false ↔ holders lib.members isbn = 1) :=
  fun isbn bk hb => (reachable_wf h).avail_iff isbn bk hb

theorem availability_invariant_witness :
    holders scenarioLib.members "111" = 1 := by
  have hb : alookup "111" scenarioLib.books =
      some { isbn := "111", title := "A", author := "a", isAvailable := false } := by
    with_unfolding_all decide
  exact (availability_invariant scenarioLib_reachable "111" _ hb).1 rfl

/-- C6: a successful return closes the most recent open BorrowRecord for
the isbn (searching from the end), setting its returnDate and
fineCharged to the per-loan fine; it removes exactly that one isbn from
the active loans, marks the book available, touches no other book, and
returns the per-loan fine (the stored balance becomes the recomputed
aggregate over the remaining loans, a different quantity). -/
theorem returnBook_success_spec {lib : Library} {memberId isbn : String}
    {mem : Member} {bk : Book} {c d : Int}
    (hm : alookup memberId lib.members = some mem)
    (hb : alookup isbn lib.books = some bk)
    (hc : alookup isbn mem.borrowedBooks = some c) (hd : ¬ d < c)
    (hnodup : (mem.borrowedBooks.map Prod.fst).Nodup) :
    (returnBook lib memberId isbn d).1 = .ok (fineForLoan c d) ∧
    alookup memberId (returnBook lib memberId isbn d).2.members =
      some { mem with
        borrowingHistory := closeLastOpen isbn d (fineForLoan c d) mem.borrowingHistory
        borrowedBooks := aerase isbn mem.borrowedBooks
        fineBalance := totalFine (aerase isbn mem.borrowedBooks) d } ∧
    alookup isbn (returnBook lib memberId isbn d).2.books =
      some { bk with isAvailable := true } ∧
    (∀ k, k ≠ isbn →
      alookup k (returnBook lib memberId isbn d).2.books = alookup k lib.books) ∧
    alookup isbn (aerase isbn mem.borrowedBooks) = none ∧
    (∀ k, k ≠ isbn →
      alookup k (aerase isbn mem.borrowedBooks) = alookup k mem.borrowedBooks) ∧
    (aerase isbn mem.borrowedBooks).length + 1 = mem.borrowedBooks.length ∧
    (mem.borrowingHistory.any (isOpenFor isbn) = true →
      ∃ pre r post, mem.borrowingHistory = pre ++ r :: post ∧
        isOpenFor isbn r = true ∧ post.any (isOpenFor isbn) = false ∧
        closeLastOpen isbn d (fineForLoan c d) mem.borrowingHistory =
          pre ++ { r with returnDate := some d, fineCharged := fineForLoan c d } :: post) := by
  rw [returnBook_success hm hb hc hd]
  have hme : (returnedLib lib memberId mem isbn bk c d).members =
      aset memberId (returnedMember mem isbn c d) lib.members := rfl
  have hbo : (returnedLib lib memberId mem isbn bk c d).books =
      aset isbn { bk with isAvailable := true } lib.books := rfl
  refine ⟨rfl, ?_, ?_, ?_, alookup_aerase_self hnodup, fun k hk => alookup_aerase_ne hk,
    length_aerase hc, fun hopen => closeLastOpen_spec isbn d (fineForLoan c d) _ hopen⟩
  · rw [hme, alookup_aset_self _ (by rw [hm]; rfl)]
    rfl
  · rw [hbo, alookup_aset_self _ (by rw [hb]; rfl)]
  · intro k hk
    rw [hbo, alookup_aset_ne hk]

theorem returnBook_success_spec_witness :
    (returnBook scenarioLib "M1" "111" 20).1 = .ok (fineForLoan 0 20) ∧
    alookup "111" (returnBook scenarioLib "M1" "111" 20).2.books =
      some { isbn := "111", title := "A", author := "a", isAvailable := true } := by
  have hm : alookup "M1" scenarioLib.members = some scenarioMember := by
    with_unfolding_all decide
  have hb : alookup "111" scenarioLib.books =
      some { isbn := "111", title := "A", author := "a", isAvailable := false } := by
    with_unfolding_all decide
  have hspec := returnBook_success_spec hm hb
    (show alookup "111" scenarioMember.borrowedBooks = some 0 by with_unfolding_all decide)
    (show ¬ (20 : Int) < 0 by decide) (by with_unfolding_all decide)
  exact ⟨hspec.1, hspec.2.2.1⟩

/-- C7: calculateFine rounds each per-loan fine to cents before summing
(each summand is a fixed point of round2), rounds the sum to two
decimals, and on the scenario of three books checked out on day 0 it
returns 9.00 as of day 20 (6 overdue days times 0.50 times 3 books). -/
theorem fine_rounding_policy :
    (∀ checkoutDate asOf : Int,
      round2 (fineForLoan checkoutDate asOf) = fineForLoan checkoutDate asOf) ∧
    (∀ (loans : List (String × Int)) (asOf : Int),
      totalFine loans asOf = round2 (totalFineRaw loans asOf)) ∧
    calculateFine scenarioLib "M1" 20 = .ok 9 :=
  ⟨round2_fineForLoan, fun _ _ => rfl, by with_unfolding_all decide⟩

/-- C8: calculateFine is read-only: it returns the state it was given
(in particular the stored fineBalance is untouched), its value is
totalFine over the active loans of the member, and a second identical
call after the first returns the identical result. -/
theorem calculateFine_readonly (lib : Library) (memberId : String) (asOf : Int) :
    (calculateFineOp lib memberId asOf).2 = lib ∧
    (∀ mem, alookup memberId lib.members = some mem →
      (calculateFineOp lib memberId asOf).1 = .ok (totalFine mem.borrowedBooks asOf)) ∧
    calculateFineOp (calculateFineOp lib memberId asOf).2 memberId asOf =
      calculateFineOp lib memberId asOf := by
  have hstate : (calculateFineOp lib memberId asOf).2 = lib := by
    rw [calculateFineOp]
    cases alookup memberId lib.members
    · rfl
    · rfl
  refine ⟨hstate, ?_, by rw [hstate]⟩
  intro mem hm
  rw [calculateFineOp_eq hm]

theorem calculateFine_readonly_witness :
    (calculateFineOp scenarioLib "M1" 20).2 = scenarioLib ∧
    (calculateFineOp scenarioLib "M1" 20).1 =
      .ok (totalFine scenarioMember.borrowedBooks 20) :=
  ⟨(calculateFine_readonly scenarioLib "M1" 20).1,
   (calculateFine_readonly scenarioLib "M1" 20).2.1 scenarioMember
     (by with_unfolding_all decide)⟩

/-- C9: a rejected checkout changes no active-loan set, no book
availability, and no history: the book list is unchanged and every
member keeps the same borrowedBooks and borrowingHistory. -/
theorem checkoutBook_all_or_nothing (lib : Library) (memberId isbn : String)
    (d : Int) (e : LibraryError)
    (h : (checkoutBook lib memberId isbn d).1 = .error e) :
    (checkoutBook lib memberId isbn d).2.books = lib.books ∧
    (∀ k, (alookup k (checkoutBook lib memberId isbn d).2.members).map
      Member.borrowedBooks = (alookup k lib.members).map Member.borrowedBooks) ∧
    (∀ k, (alookup k (checkoutBook lib memberId isbn d).2.members).map
      Member.borrowingHistory = (alookup k lib.members).map Member.borrowingHistory) :=
  checkoutBook_error_frame h

theorem checkoutBook_all_or_nothing_witness :
    (checkoutBook scenarioLib "M1" "444" 0).2.books = scenarioLib.books ∧
    (alookup "M1" (checkoutBook scenarioLib "M1" "444" 0).2.members).map
      Member.borrowedBooks = (alookup "M1" scenarioLib.members).map Member.borrowedBooks := by
  have h := checkoutBook_all_or_nothing scenarioLib "M1" "444" 0 .borrowLimit
    (by with_unfolding_all decide)
  exact ⟨h.1, h.2.1 "M1"⟩

/-- C10: in every reachable state the duplicate-loan rejection of
checkout is dead code: checkout never returns it, because when the
member already holds the isbn the book is unavailable, so the request is
rejected by the fine-block or availability check first. -/
theorem duplicate_loan_unreachable {lib : Library} (h : Reachable lib)
    (memberId isbn : String) (d : Int) :
    (checkoutBook lib memberId isbn d).1 ≠ .error .duplicateLoan ∧
    (∀ mem, alookup memberId lib.members = some mem →
      (alookup isbn mem.borrowedBooks).isSome = true →
      (checkoutBook lib memberId isbn d).1 = .error .fineBlock ∨
      (checkoutBook lib memberId isbn d).1 = .error .unavailable) := by
  have hwf := reachable_wf h
  cases hm : alookup memberId lib.members with
  | none =>
    rw [checkoutBook_memberNotFound hm]
    exact ⟨by simp, fun mem hmem => by cases hmem⟩
  | some mem =>
    cases hb : alookup isbn lib.books with
    | none =>
      rw [checkoutBook_bookNotFound hm hb]
      refine ⟨by simp, fun mem₁ hmem hl => ?_⟩
      injection hmem with he
      subst he
      obtain ⟨bk, hbk, _⟩ := held_book_unavailable hwf hm hl
      rw [hb] at hbk
      cases hbk
    | some bk =>
      rw [checkoutBook_resolved hm hb]
      split_ifs with h1 h2 h3 h4
      · exact ⟨by simp, fun _ _ _ => Or.inl rfl⟩
      · exact ⟨by simp, fun _ _ _ => Or.inr rfl⟩
      · refine ⟨by simp, fun mem₁ hmem hl => ?_⟩
        injection hmem with he
        subst he
        obtain ⟨bk₁, hbk, hunav⟩ := held_book_unavailable hwf hm hl
        rw [hb] at hbk
        injection hbk with he₁
        subst he₁
        exact absurd hunav h2
      · exfalso
        obtain ⟨bk₁, hbk, hunav⟩ := held_book_unavailable hwf hm h4
        rw [hb] at hbk
        injection hbk with he₁
        subst he₁
        exact absurd hunav h2
      · refine ⟨by simp, fun mem₁ hmem hl => ?_⟩
        injection hmem with he
        subst he
        exact absurd hl h4

theorem duplicate_loan_unreachable_witness :
    (checkoutBook scenarioLib "M1" "111" 0).1 = .error .fineBlock ∨
    (checkoutBook scenarioLib "M1" "111" 0).1 = .error .unavailable := by
  have hm : alookup "M1" scenarioLib.members = some scenarioMember := by
    with_unfolding_all decide
  exact (duplicate_loan_unreachable scenarioLib_reachable "M1" "111" 0).2
    scenarioMember hm (by with_unfolding_all decide)

end LibrarySystem
